import Mathlib

/-!
Verification of the relocation-recommendation endpoint and the navigation
link highlighter.

The server side (`src/unnamed/part_000`) is a single request handler:
it resolves an API credential from a five-source chain (`getApiKey`),
and on a POST either relays an upstream chat-completion answer or, with
no credential, computes a deterministic fallback recommendation.

The browser side (`src/asset/shimmer.js`) holds two near-duplicate
IIFEs that toggle the `shimmer` CSS class on header navigation anchors.

JavaScript runtime values are modelled by `JsVal`; the ambient platform
(environment variables, file system, `JSON.parse`, the upstream HTTP
call, the DOM query results) is passed in as explicit parameters, so
every definition below is a pure function of its inputs.
-/

/-- A JavaScript runtime value, as far as the handler inspects one.
Numbers are modelled as integers (the handler never computes with them). -/
inductive JsVal : Type where
  | undefined : JsVal
  | null : JsVal
  | bool : Bool → JsVal
  | num : Int → JsVal
  | str : String → JsVal
  | arr : List JsVal → JsVal
  | obj : List (String × JsVal) → JsVal

/-- JavaScript truthiness of a `JsVal`. -/
def JsVal.truthy : JsVal → Bool
  | .undefined => false
  | .null => false
  | .bool b => b
  | .num n => n != 0
  | .str s => s != ""
  | .arr _ => true
  | .obj _ => true

/-- `a || b` on JS values: `b` when `a` is falsy, else `a`. -/
def jsOr (a b : JsVal) : JsVal := if a.truthy then a else b

/-- Property read `v[k]` on a non-null base: field lookup on objects,
`undefined` everywhere else (the handler only reads named, non-index
properties). -/
def JsVal.getProp (v : JsVal) (k : String) : JsVal :=
  match v with
  | .obj fs => match fs.lookup k with
    | some x => x
    | none => .undefined
  | _ => .undefined

/-- Property read `v[k]` as JS performs it: a `TypeError` on `null` or
`undefined`, otherwise `getProp`. -/
def JsVal.getPropE (v : JsVal) (k : String) : Except String JsVal :=
  match v with
  | .undefined => .error "TypeError: cannot read properties of undefined"
  | .null => .error "TypeError: cannot read properties of null"
  | _ => .ok (v.getProp k)

/-- `Object.keys`: own enumerable keys — object field names, array and
string indices, nothing for primitives. -/
def JsVal.jsKeys : JsVal → List String
  | .obj fs => fs.map Prod.fst
  | .arr xs => (List.range xs.length).map toString
  | .str s => (List.range s.length).map toString
  | _ => []

/-- Strict-equality comparison of a JS value against a string literal,
as used by `Array.prototype.includes('panama')`. -/
def JsVal.eqStr : JsVal → String → Bool
  | .str s, t => s == t
  | _, _ => false

/-! ### JS string primitives

The script calls `trim`, `toLowerCase`, `split` and `includes` on
JavaScript strings. They are modelled by structurally recursive
functions over the character list of a Lean string. -/

/-- A character `String.prototype.trim` removes (the ASCII whitespace
class; JS also strips rarer Unicode spaces that never appear here). -/
def isJsSpace (c : Char) : Bool :=
  c = ' ' || c = '\t' || c = '\n' || c = '\r' ||
    c = Char.ofNat 11 || c = Char.ofNat 12

/-- `String.prototype.trim`: strip leading and trailing whitespace. -/
def jsTrim (s : String) : String :=
  ⟨((s.toList.dropWhile isJsSpace).reverse.dropWhile isJsSpace).reverse⟩

/-- `String.prototype.toLowerCase` (ASCII case mapping). -/
def jsToLower (s : String) : String := ⟨s.toList.map Char.toLower⟩

/-- `String.prototype.split` with a one-character separator. -/
def splitChar (sep : Char) : List Char → List (List Char)
  | [] => [[]]
  | c :: rest =>
    let r := splitChar sep rest
    if c = sep then [] :: r
    else match r with
      | [] => [[c]]
      | g :: gs => (c :: g) :: gs

/-- Is the first list a prefix of the second? -/
def isPrefixList : List Char → List Char → Bool
  | [], _ => true
  | _ :: _, [] => false
  | a :: as, b :: bs => a = b && isPrefixList as bs

/-- Does `sub` occur as a contiguous run inside `hay`? -/
def containsSub (hay sub : List Char) : Bool :=
  match hay with
  | [] => isPrefixList sub []
  | _ :: rest => isPrefixList sub hay || containsSub rest sub

/-- `String.prototype.includes`: substring containment (`""` is in
every string). -/
def strIncludes (s sub : String) : Bool :=
  containsSub s.toList sub.toList

/-- `v.includes(needle)` with a string argument: substring test on
strings, membership test on arrays, a `TypeError` on anything else
(no `includes` method). -/
def jsIncludes (v : JsVal) (needle : String) : Except String Bool :=
  match v with
  | .str s => .ok (strIncludes s needle)
  | .arr xs => .ok (xs.any (·.eqStr needle))
  | _ => .error "TypeError: includes is not a function"

/-! ## Credential resolution (`tryReadFileSync`, `getApiKey`)

The environment is `env : String → Option String` (an unset variable is
`none`) and the file system is `read : String → Option String` (`none`
for any read error). -/

/-- `tryReadFileSync`: read and trim the file, return the trimmed
content when non-empty, `null` (here `none`) on error or emptiness. -/
def tryReadFileSync (read : String → Option String) (path : String) :
    Option String :=
  match read path with
  | some content =>
    let s := jsTrim content
    if s ≠ "" then some s else none
  | none => none

/-- The guard `process.env.NAME && process.env.NAME.trim()`: the trimmed
value when the variable is set and trims to something non-empty. -/
def envCandidate (env : String → Option String) (name : String) :
    Option String :=
  match env name with
  | some s => if jsTrim s ≠ "" then some (jsTrim s) else none
  | none => none

/-- `getApiKey`: the five-source chain, first success wins. -/
def getApiKey (env : String → Option String)
    (read : String → Option String) : Option String :=
  match envCandidate env "OPENAI_API_KEY" with
  | some k => some k
  | none =>
  match envCandidate env "OPEN_AI_KEY" with
  | some k => some k
  | none =>
  match (env "OPEN_AI_KEY_FILE").bind
      (fun p => if p ≠ "" then tryReadFileSync read p else none) with
  | some k => some k
  | none =>
  match tryReadFileSync read "./OPEN_AI_KEY" with
  | some k => some k
  | none =>
  match tryReadFileSync read "/run/secrets/OPEN_AI_KEY" with
  | some k => some k
  | none => none

/-- The five credential sources in spec order, each as an optional
trimmed value. -/
def credentialSources (env : String → Option String)
    (read : String → Option String) : List (Option String) :=
  [ envCandidate env "OPENAI_API_KEY",
    envCandidate env "OPEN_AI_KEY",
    (env "OPEN_AI_KEY_FILE").bind
      (fun p => if p ≠ "" then tryReadFileSync read p else none),
    tryReadFileSync read "./OPEN_AI_KEY",
    tryReadFileSync read "/run/secrets/OPEN_AI_KEY" ]

/-- Modelled from the spec: credential resolution returns the first
source in priority order that yields a value, and an absence signal
when all five fail. -/
def resolveCredentialSpec (env : String → Option String)
    (read : String → Option String) : Option String :=
  ((credentialSources env read).filterMap id).head?

/-! ## Fallback recommendation -/

/-- Normalisation of `answers.destinations`:
`Array.isArray(d) ? d : (d ? [d] : [])`. -/
def normDests (v : JsVal) : List JsVal :=
  match v with
  | .arr xs => xs
  | w => if w.truthy then [w] else []

/-- The fallback pick chain over the normalised destination list and the
raw `relocation` value (`answers.relocationType || ''`); the last guard
calls `.includes` on `relocation`, which throws on truthy non-string,
non-array values. -/
def pickCountry (dests : List JsVal) (relocation : JsVal) :
    Except String String :=
  if dests.any (·.eqStr "panama") then .ok "Panama"
  else if dests.any (·.eqStr "belize") then .ok "Belize"
  else if relocation.truthy then do
    let b ← jsIncludes relocation "work"
    .ok (if b then "Panama" else "Costa Rica")
  else .ok "Costa Rica"

/-- First fallback city name, the ternary chain from the source. -/
def cityName1 (pick : String) : String :=
  if pick = "Costa Rica" then "San José"
  else if pick = "Panama" then "Panama City" else "Belize City"

/-- Second fallback city name. -/
def cityName2 (pick : String) : String :=
  if pick = "Costa Rica" then "Guanacaste"
  else if pick = "Panama" then "Boquete" else "San Pedro"

/-- Third fallback city name. -/
def cityName3 (pick : String) : String :=
  if pick = "Costa Rica" then "La Fortuna"
  else if pick = "Panama" then "David" else "Caye Caulker"

/-- The fallback recommendation object for the picked country. -/
def fallbackObj (pick : String) : JsVal :=
  .obj
    [ ("country", .str pick),
      ("score", .num 75),
      ("reasons", .arr
        [ .str ("Based on your selections, " ++ pick ++
            " aligns best with your priorities."),
          .str "Good balance of lifestyle, services, and accessibility for your needs." ]),
      ("cities", .arr
        [ .obj [("name", .str (cityName1 pick)),
                ("reason", .str "Main hub with services")],
          .obj [("name", .str (cityName2 pick)),
                ("reason", .str "Popular expat/retirement spot")],
          .obj [("name", .str (cityName3 pick)),
                ("reason", .str "Leisure and nature options")] ]) ]

/-- An HTTP response: `res.status(n).send(text)` or
`res.status(n).json(value)`. -/
inductive Resp : Type where
  | send : Nat → String → Resp
  | json : Nat → JsVal → Resp

/-- The no-credential fallback branch: normalise destinations, default
`relocationType` to `''`, run the pick chain, respond 200 with the
fallback object. An uncaught `TypeError` is the `.error` case. -/
def fallbackResp (answers : JsVal) : Except String Resp := do
  let dests := normDests (answers.getProp "destinations")
  let relocation := jsOr (answers.getProp "relocationType") (.str "")
  let pick ← pickCountry dests relocation
  return .json 200 (fallbackObj pick)

/-! ## Upstream branch -/

/-- The upstream response JSON, as far as the handler reads it:
`j.choices?.[0]?.message?.content`. Every step is optional. -/
structure UpstreamMsg : Type where
  content : Option String

/-- One element of `choices`, holding an optional `message`. -/
structure UpstreamChoice : Type where
  message : Option UpstreamMsg

/-- The parsed upstream response body. -/
structure UpstreamJson : Type where
  choices : Option (List UpstreamChoice)

/-- The optional-chaining path `j.choices?.[0]?.message?.content`. -/
def contentPath (j : UpstreamJson) : Option String :=
  ((j.choices.bind List.head?).bind UpstreamChoice.message).bind
    UpstreamMsg.content

/-- `j.choices?.[0]?.message?.content || ''`. -/
def assistantOf (j : UpstreamJson) : String := (contentPath j).getD ""

/-- The brace character, `'{'` (code point 123). -/
def braceChar : Char := Char.ofNat 123

/-- Left-to-right scan for the first position of a character, indices
counted from the accumulator. -/
def firstIdxAux (c : Char) : Nat → List Char → Option Nat
  | _, [] => none
  | i, x :: xs => if x = c then some i else firstIdxAux c (i + 1) xs

/-- `assistant.indexOf(brace)` as an optional index
(JS returns `-1` when absent). -/
def firstBracePos (s : String) : Option Nat :=
  firstIdxAux braceChar 0 s.toList

/-- `start >= 0 ? assistant.slice(start) : assistant`. -/
def jsonTextOf (assistant : String) : String :=
  match firstBracePos assistant with
  | some i => ⟨assistant.toList.drop i⟩
  | none => assistant

/-- Outcome of the single upstream `fetch`: a transport exception, a
non-ok response (with its diagnostic body text), or an ok response with
parsed JSON body. -/
inductive Upstream : Type where
  | threw : Upstream
  | respNotOk : String → Upstream
  | respOk : UpstreamJson → Upstream

/-- The ok-response branch: take the assistant content, parse from the
first brace (`parse` is the platform `JSON.parse`, `none` on failure),
respond 200 with the parsed object or with `\x7b text: assistant \x7d`. -/
def okBranch (parse : String → Option JsVal) (j : UpstreamJson) : Resp :=
  let assistant := assistantOf j
  match parse (jsonTextOf assistant) with
  | some parsed => .json 200 parsed
  | none => .json 200 (.obj [("text", .str assistant)])

/-- The credential-present branch: 500 on a transport exception, 502 on
a non-ok upstream response, else the ok-response branch. -/
def upstreamBranch (parse : String → Option JsVal) (up : Upstream) : Resp :=
  match up with
  | .threw => .send 500 "Server error"
  | .respNotOk _ => .send 502 "OpenAI API error"
  | .respOk j => okBranch parse j

/-! ## The request handler -/

/-- `!body || Object.keys(body).length === 0`: the platform body is
absent, falsy, or keyless, so the stream is parsed manually. -/
def needsManualParse (preBody : Option JsVal) : Bool :=
  match preBody with
  | none => true
  | some v => !v.truthy || v.jsKeys.length == 0

/-- The manual body: `JSON.parse(d || '\x7b\x7d')`, `\x7b\x7d` on parse
failure. `raw` is the accumulated stream. -/
def manualBody (parse : String → Option JsVal) (raw : String) : JsVal :=
  (parse (if raw = "" then "\x7b\x7d" else raw)).getD (.obj [])

/-- The handler given the extracted `answers`: fallback branch without a
credential, upstream branch with one. -/
def handlerCore (parse : String → Option JsVal) (answers : JsVal)
    (key : Option String) (up : Upstream) : Except String Resp :=
  match key with
  | none => fallbackResp answers
  | some _ => .ok (upstreamBranch parse up)

/-- The exported handler. Ambient effects are parameters: `parse` is
`JSON.parse`, `preBody` the platform-parsed `req.body`, `raw` the
accumulated request stream, `key` the resolved credential, `up` the
upstream outcome. -/
def handler (parse : String → Option JsVal) (method : String)
    (preBody : Option JsVal) (raw : String) (key : Option String)
    (up : Upstream) : Except String Resp :=
  if method ≠ "POST" then .ok (.send 405 "Method not allowed")
  else do
    let body := if needsManualParse preBody then manualBody parse raw
      else (preBody.getD (.obj []))
    let aRaw ← body.getPropE "answers"
    let answers := jsOr aRaw (.obj [])
    handlerCore parse answers key up

/-! ## Link highlighter (`src/asset/shimmer.js`)

An anchor element is the slice of DOM state the script reads or writes:
its `href` attribute (`none` when absent), whether it contains an `img`
or `svg` descendant, its class list, and its `tabindex` attribute. The
selector scan is modelled by the ordered list of anchors the
`querySelectorAll` loops visit. -/

/-- The DOM state of one anchor element touched by the script. -/
structure Anchor : Type where
  href : Option String
  hasImg : Bool
  hasSvg : Bool
  classes : List String
  tabindex : Option String
  deriving DecidableEq, Repr

/-- `href.split('/').pop().toLowerCase()`. -/
def normFilename (href : String) : String :=
  jsToLower ⟨(splitChar '/' href.toList).getLastD []⟩

/-- The filename an anchor is recorded under, or `none` when the
per-anchor body returns early: logo anchors (containing `img`/`svg`),
a missing or empty `href`, an empty normalised filename. -/
def candidate (a : Anchor) : Option String :=
  if a.hasImg || a.hasSvg then none
  else match a.href with
    | none => none
    | some h =>
      if h = "" then none
      else
        let fname := normFilename h
        if fname = "" then none else some fname

/-- Does the insertion-ordered map hold key `k`? -/
def hasKey (m : List (String × Nat)) (k : String) : Bool :=
  m.any (fun p => p.1 = k)

/-- `Map.set` semantics (variant A): replace the value at an existing
key in place, else append. -/
def mapSetReplace (m : List (String × Nat)) (k : String) (v : Nat) :
    List (String × Nat) :=
  if hasKey m k then m.map (fun p => if p.1 = k then (k, v) else p)
  else m ++ [(k, v)]

/-- Guarded insert (variant B): `if (!anchors.has(filename))
anchors.set(filename, a)`. -/
def mapSetIfAbsent (m : List (String × Nat)) (k : String) (v : Nat) :
    List (String × Nat) :=
  if hasKey m k then m else m ++ [(k, v)]

/-- One step of the collection loop: record anchor index `i` under its
candidate filename, or skip it. `firstWins` selects variant B's guarded
insert over variant A's replacing `set`. -/
def collectStep (firstWins : Bool) (m : List (String × Nat)) (i : Nat)
    (a : Anchor) : List (String × Nat) :=
  match candidate a with
  | none => m
  | some f =>
    if firstWins then mapSetIfAbsent m f i else mapSetReplace m f i

/-- The collection loop over the scan, indices counted from `i`. -/
def collectAux (firstWins : Bool) : Nat → List Anchor →
    List (String × Nat) → List (String × Nat)
  | _, [], m => m
  | i, a :: rest, m =>
    collectAux firstWins (i + 1) rest (collectStep firstWins m i a)

/-- The anchor map built by the selector scan. -/
def collect (firstWins : Bool) (scan : List Anchor) :
    List (String × Nat) :=
  collectAux firstWins 0 scan []

/-- The filename anchor index `i` is recorded under, if any. -/
def entryFor (m : List (String × Nat)) (i : Nat) : Option String :=
  (m.find? (fun p => p.2 = i)).map Prod.fst

/-- `classList.add`: append the class when absent. -/
def classAdd (cs : List String) (c : String) : List String :=
  if cs.contains c then cs else cs ++ [c]

/-- `classList.remove`: drop every occurrence. -/
def classRemove (cs : List String) (c : String) : List String :=
  cs.filter (fun x => x ≠ c)

/-- The apply loop body for one recorded anchor: add `shimmer` when the
filename is a destination other than the current page (variant A also
sets `tabindex` to its old value or `'0'`), else remove `shimmer`. -/
def applyToAnchor (variantA : Bool) (dests : List String)
    (current : String) (fname : String) (a : Anchor) : Anchor :=
  if dests.contains fname && fname ≠ current then
    let a1 := { a with classes := classAdd a.classes "shimmer" }
    if variantA then
      { a1 with tabindex := some (match a1.tabindex with
          | some t => if t = "" then "0" else t
          | none => "0") }
    else a1
  else { a with classes := classRemove a.classes "shimmer" }

/-- Final DOM state of the scanned anchors after the apply loop
(indices counted from `i`): a recorded anchor is rewritten by
`applyToAnchor` under its filename, an unrecorded one is untouched. -/
def applyAll (variantA : Bool) (dests : List String) (current : String)
    (m : List (String × Nat)) : Nat → List Anchor → List Anchor
  | _, [] => []
  | i, a :: rest =>
    (match entryFor m i with
      | some f => applyToAnchor variantA dests current f a
      | none => a) :: applyAll variantA dests current m (i + 1) rest

/-- One full run of either IIFE core over the scanned anchors. -/
def runShimmer (variantA : Bool) (dests : List String)
    (current : String) (scan : List Anchor) : List Anchor :=
  applyAll variantA dests current (collect (!variantA) scan) 0 scan

/-- Variant A's hard-coded destination list. -/
def destinationPagesA : List String :=
  ["costarica.html", "panama.html", "belize.html"]

/-- `(location.pathname.split('/').pop() || 'index.html').toLowerCase()`. -/
def currentOf (pathname : String) : String :=
  jsToLower
    (let f : String := ⟨(splitChar '/' pathname.toList).getLastD []⟩
     if f = "" then "index.html" else f)

/-- Variant A's IIFE over its scanned anchors. -/
def runVariantA (current : String) (scan : List Anchor) : List Anchor :=
  runShimmer true destinationPagesA current scan

/-- `data-destinations` parsing in variant B: split on commas, trim and
lowercase, drop empties. -/
def parseDestinations (raw : String) : List String :=
  ((splitChar ',' raw.toList).map
    (fun cs => jsToLower (jsTrim ⟨cs⟩))).filter (fun s => s ≠ "")

/-- Variant B's IIFE: read the destination list from the
`data-destinations` attribute (`none` when absent), do nothing when it
is empty, else run the core. -/
def runVariantB (dataAttr : Option String) (current : String)
    (scan : List Anchor) : List Anchor :=
  let dests := parseDestinations (dataAttr.getD "")
  if dests.isEmpty then scan
  else runShimmer false dests current scan

/-! ## Helper lemmas -/

/-- Every successful pick is one of the three fixed countries. -/
theorem pickCountry_ok_mem (dests : List JsVal) (rl : JsVal) (p : String)
    (h : pickCountry dests rl = .ok p) :
    p = "Costa Rica" ∨ p = "Panama" ∨ p = "Belize" := by
  unfold pickCountry at h
  split at h
  · exact Or.inr (Or.inl (Except.ok.inj h).symm)
  · split at h
    · exact Or.inr (Or.inr (Except.ok.inj h).symm)
    · split at h
      · rcases hj : jsIncludes rl "work" with e | b <;> rw [hj] at h
        · simp [Bind.bind, Except.bind] at h
        · simp only [Bind.bind, Except.bind, Except.ok.injEq] at h
          subst h
          cases b
          · exact Or.inl rfl
          · exact Or.inr (Or.inl rfl)
      · exact Or.inl (Except.ok.inj h).symm

/-- A string-valued relocation never makes the pick chain throw. -/
theorem pickCountry_str_ok (dests : List JsVal) (s : String) :
    ∃ p, pickCountry dests (.str s) = .ok p := by
  unfold pickCountry
  split
  · exact ⟨_, rfl⟩
  · split
    · exact ⟨_, rfl⟩
    · split
      · exact ⟨_, rfl⟩
      · exact ⟨_, rfl⟩

/-! ## Claims C1, C5, C10 -/

/-- C1: With no credential, the fallback country pick is a strict
override chain in fixed priority order: default "Costa Rica"; a
destination list containing "panama" overrides to "Panama"; else one
containing "belize" overrides to "Belize"; else relocation text
containing the substring "work" overrides to "Panama". In particular a
list containing both "belize" and "panama" (in any order) picks
"Panama", because the panama check precedes the belize check. -/
theorem c1_fallback_pick_chain :
    (∀ dests relocation, dests.any (·.eqStr "panama") = true →
        pickCountry dests relocation = .ok "Panama") ∧
    (∀ dests relocation, dests.any (·.eqStr "panama") = false →
        dests.any (·.eqStr "belize") = true →
        pickCountry dests relocation = .ok "Belize") ∧
    (∀ dests s, dests.any (·.eqStr "panama") = false →
        dests.any (·.eqStr "belize") = false → s ≠ "" →
        pickCountry dests (.str s) =
          .ok (if strIncludes s "work" then "Panama" else "Costa Rica")) ∧
    (∀ dests, dests.any (·.eqStr "panama") = false →
        dests.any (·.eqStr "belize") = false →
        pickCountry dests (.str "") = .ok "Costa Rica") ∧
    (∀ dests relocation, JsVal.str "panama" ∈ dests →
        JsVal.str "belize" ∈ dests →
        pickCountry dests relocation = .ok "Panama") := by
  refine ⟨?_, ?_, ?_, ?_, ?_⟩
  · intro dests relocation h1
    simp [pickCountry, h1]
  · intro dests relocation h1 h2
    simp [pickCountry, h1, h2]
  · intro dests s h1 h2 hs
    simp [pickCountry, h1, h2, JsVal.truthy, jsIncludes, hs,
      Bind.bind, Except.bind]
  · intro dests h1 h2
    simp [pickCountry, h1, h2, JsVal.truthy]
  · intro dests relocation hp _
    have h1 : dests.any (·.eqStr "panama") = true :=
      List.any_eq_true.2 ⟨_, hp, by simp [JsVal.eqStr]⟩
    simp [pickCountry, h1]

/-- Witness for C1: a destination list listing "belize" before "panama"
still picks "Panama". -/
theorem c1_witness :
    pickCountry [JsVal.str "belize", JsVal.str "panama"] (.str "") =
      .ok "Panama" :=
  c1_fallback_pick_chain.2.2.2.2 _ _ (by simp) (by simp)

/-- C5: With a credential present, a non-success upstream response
yields a 502 with a fixed generic body independent of the upstream
diagnostic text, while an exception thrown during the upstream call
yields a 500 with a fixed generic body; the failure mode alone picks
the status code. -/
theorem c5_upstream_failure_codes (parse : String → Option JsVal)
    (answers : JsVal) (k t : String) :
    handlerCore parse answers (some k) (.respNotOk t) =
      .ok (.send 502 "OpenAI API error") ∧
    handlerCore parse answers (some k) .threw =
      .ok (.send 500 "Server error") :=
  ⟨rfl, rfl⟩

/-- `answers.relocationType` is absent, falsy, or a string. -/
def relocOK (v : JsVal) : Prop := v.truthy = false ∨ ∃ s, v = .str s

/-- C10: The no-credential fallback branch terminates with a 200
response whenever `answers.relocationType` is absent, falsy, or a
string; the hypothesis cannot be dropped, because a truthy non-string
value such as the number 5 makes the raw `.includes` call throw. -/
theorem c10_fallback_totality :
    (∀ answers : JsVal, relocOK (answers.getProp "relocationType") →
        ∃ pick, fallbackResp answers = .ok (.json 200 (fallbackObj pick))) ∧
    fallbackResp (.obj [("relocationType", .num 5)]) =
      .error "TypeError: includes is not a function" := by
  constructor
  · intro answers hrel
    have hstr : ∃ s,
        jsOr (answers.getProp "relocationType") (.str "") = JsVal.str s := by
      rcases hrel with hf | ⟨s, hs⟩
      · exact ⟨"", by simp [jsOr, hf]⟩
      · rw [hs]
        by_cases h : (JsVal.str s).truthy
        · exact ⟨s, by simp [jsOr, h]⟩
        · exact ⟨"", by simp [jsOr, h]⟩
    obtain ⟨s, hs⟩ := hstr
    obtain ⟨p, hp⟩ :=
      pickCountry_str_ok (normDests (answers.getProp "destinations")) s
    refine ⟨p, ?_⟩
    simp only [fallbackResp, hs, hp, Bind.bind, Except.bind]
    rfl
  · rfl

/-- Witness for C10: a request whose relocation type is the string
"work visa" goes through the fallback branch and yields a 200. -/
theorem c10_witness :
    relocOK ((JsVal.obj [("relocationType", JsVal.str "work visa")]).getProp
      "relocationType") ∧
    ∃ pick, fallbackResp (.obj [("relocationType", .str "work visa")]) =
      .ok (.json 200 (fallbackObj pick)) :=
  ⟨Or.inr ⟨_, rfl⟩, c10_fallback_totality.1 _ (Or.inr ⟨_, rfl⟩)⟩

/-! ## Claim C2 -/

/-- C2: Credential resolution checks its five sources in strict
priority order and returns the first non-empty trimmed value, `none`
when all fail: it coincides with the spec's first-success chain over
`credentialSources`; when `OPENAI_API_KEY` is set with non-whitespace
content it wins outright (in particular over `OPEN_AI_KEY`); and when
every source fails — including file reads that error out or hold only
whitespace — the result is the absence signal. -/
theorem c2_credential_chain :
    (∀ env read, getApiKey env read = resolveCredentialSpec env read) ∧
    (∀ env read a, env "OPENAI_API_KEY" = some a → jsTrim a ≠ "" →
        getApiKey env read = some (jsTrim a)) ∧
    (∀ env read, (∀ o ∈ credentialSources env read, o = none) →
        getApiKey env read = none) := by
  refine ⟨?_, ?_, ?_⟩
  · intro env read
    unfold getApiKey resolveCredentialSpec credentialSources
    cases envCandidate env "OPENAI_API_KEY" <;>
      cases envCandidate env "OPEN_AI_KEY" <;>
        cases (env "OPEN_AI_KEY_FILE").bind
            (fun p => if p ≠ "" then tryReadFileSync read p else none) <;>
          cases tryReadFileSync read "./OPEN_AI_KEY" <;>
            cases tryReadFileSync read "/run/secrets/OPEN_AI_KEY" <;>
              simp [List.filterMap]
  · intro env read a h1 h2
    have hc : envCandidate env "OPENAI_API_KEY" = some (jsTrim a) := by
      simp [envCandidate, h1, h2]
    unfold getApiKey
    rw [hc]
  · intro env read hall
    have h1 := hall (envCandidate env "OPENAI_API_KEY")
      (by simp [credentialSources])
    have h2 := hall (envCandidate env "OPEN_AI_KEY")
      (by simp [credentialSources])
    have h3 := hall ((env "OPEN_AI_KEY_FILE").bind
        (fun p => if p ≠ "" then tryReadFileSync read p else none))
      (by simp [credentialSources])
    have h4 := hall (tryReadFileSync read "./OPEN_AI_KEY")
      (by simp [credentialSources])
    have h5 := hall (tryReadFileSync read "/run/secrets/OPEN_AI_KEY")
      (by simp [credentialSources])
    unfold getApiKey
    rw [h1, h2, h3, h4, h5]

/-- Witness for C2: with both env vars set, the first one's trimmed
value wins. -/
theorem c2_witness :
    getApiKey
      (fun n => if n = "OPENAI_API_KEY" then some " k1 "
        else if n = "OPEN_AI_KEY" then some "k2" else none)
      (fun _ => none) = some "k1" :=
  c2_credential_chain.2.1 _ _ " k1 " rfl (by decide)

/-! ## Claim C3 -/

/-- Modelled from the spec: the fixed per-country city-name table
(3 countries × 3 cities). -/
def cityTable (c : String) : List String :=
  if c = "Costa Rica" then ["San José", "Guanacaste", "La Fortuna"]
  else if c = "Panama" then ["Panama City", "Boquete", "David"]
  else ["Belize City", "San Pedro", "Caye Caulker"]

/-- C3: Every fallback Recommendation returned with status 200 has
score exactly 75, a country drawn from the fixed three-country set,
exactly 2 reason strings, and exactly 3 city entries whose names are
exactly the per-country table entries for the picked country. -/
theorem c3_fallback_shape (answers : JsVal) (r : Resp)
    (h : fallbackResp answers = .ok r) :
    ∃ pick, (pick = "Costa Rica" ∨ pick = "Panama" ∨ pick = "Belize") ∧
      r = .json 200 (fallbackObj pick) ∧
      (fallbackObj pick).getProp "score" = .num 75 ∧
      (∃ rs, (fallbackObj pick).getProp "reasons" = .arr rs ∧
        rs.length = 2) ∧
      (∃ cs, (fallbackObj pick).getProp "cities" = .arr cs ∧
        cs.length = 3 ∧
        cs.map (fun c => c.getProp "name") =
          (cityTable pick).map JsVal.str) := by
  rcases hp : pickCountry (normDests (answers.getProp "destinations"))
      (jsOr (answers.getProp "relocationType") (.str "")) with e | pick
  · simp only [fallbackResp, hp, Bind.bind, Except.bind] at h
    cases h
  · have hr : r = .json 200 (fallbackObj pick) := by
      simp only [fallbackResp, hp, Bind.bind, Except.bind, pure,
        Except.pure, Except.ok.injEq] at h
      exact h.symm
    refine ⟨pick, pickCountry_ok_mem _ _ _ hp, hr, rfl, ⟨_, rfl, rfl⟩,
      ⟨_, rfl, rfl, ?_⟩⟩
    rcases pickCountry_ok_mem _ _ _ hp with h1 | h1 | h1 <;> subst h1 <;> rfl

/-- Witness for C3: the empty answers object produces the Costa Rica
fallback, which satisfies every shape invariant. -/
theorem c3_witness :
    ∃ pick, (pick = "Costa Rica" ∨ pick = "Panama" ∨ pick = "Belize") ∧
      Resp.json 200 (fallbackObj "Costa Rica") =
        .json 200 (fallbackObj pick) ∧
      (fallbackObj pick).getProp "score" = .num 75 ∧
      (∃ rs, (fallbackObj pick).getProp "reasons" = .arr rs ∧
        rs.length = 2) ∧
      (∃ cs, (fallbackObj pick).getProp "cities" = .arr cs ∧
        cs.length = 3 ∧
        cs.map (fun c => c.getProp "name") =
          (cityTable pick).map JsVal.str) :=
  c3_fallback_shape (.obj []) (.json 200 (fallbackObj "Costa Rica")) rfl

/-! ## Claim C6 -/

/-- C6: A non-POST request is rejected immediately with 405 regardless
of any body, and a POST whose platform body is absent or keyless and
whose stream is empty or not parseable as JSON proceeds exactly as if
`answers` were the empty object, with no exception escaping to the
caller. (`parse "\x7b\x7d" = some (.obj [])` records what the platform
`JSON.parse` does on the `'\x7b\x7d'` default substituted for an empty
stream.) -/
theorem c6_malformed_body_tolerated :
    (∀ (parse : String → Option JsVal) preBody raw key up method,
        method ≠ "POST" →
        handler parse method preBody raw key up =
          .ok (.send 405 "Method not allowed")) ∧
    (∀ (parse : String → Option JsVal) preBody raw key up,
        needsManualParse preBody = true →
        ((raw = "" ∧ parse "\x7b\x7d" = some (.obj [])) ∨
          (raw ≠ "" ∧ parse raw = none)) →
        handler parse "POST" preBody raw key up =
          handlerCore parse (.obj []) key up ∧
        ∃ r, handler parse "POST" preBody raw key up = .ok r) := by
  constructor
  · intro parse preBody raw key up method hm
    simp [handler, hm]
  · intro parse preBody raw key up hmanual hraw
    have hbody : manualBody parse raw = .obj [] := by
      rcases hraw with ⟨he, hp⟩ | ⟨hne, hp⟩
      · simp [manualBody, he, hp]
      · simp [manualBody, hne, hp]
    have hh : handler parse "POST" preBody raw key up =
        handlerCore parse (.obj []) key up := by
      simp only [handler, if_neg (by simp : ¬("POST" : String) ≠ "POST"),
        hmanual, if_pos, hbody, Bind.bind, Except.bind]
      rfl
    refine ⟨hh, ?_⟩
    rw [hh]
    cases key with
    | none => exact ⟨_, rfl⟩
    | some k => exact ⟨_, rfl⟩

/-- Witness for C6: a GET is rejected with 405, and a POST carrying the
unparseable stream "nonsense" behaves as the empty answers object. -/
theorem c6_witness :
    handler (fun _ => none) "GET" none "x" none .threw =
      .ok (.send 405 "Method not allowed") ∧
    handler (fun _ => none) "POST" none "nonsense" none .threw =
      handlerCore (fun _ => none) (.obj []) none .threw :=
  ⟨c6_malformed_body_tolerated.1 _ _ _ _ _ _ (by decide),
    (c6_malformed_body_tolerated.2 (fun _ => none) none "nonsense" none
      .threw rfl (Or.inr ⟨by decide, rfl⟩)).1⟩

/-! ## Claim C4 -/

/-- Scanning from a shifted start index shifts every reported index. -/
theorem firstIdxAux_shift (c : Char) (l : List Char) (i : Nat) :
    firstIdxAux c i l = (firstIdxAux c 0 l).map (· + i) := by
  induction l generalizing i with
  | nil => rfl
  | cons x xs ih =>
    by_cases hx : x = c
    · simp [firstIdxAux, hx]
    · rw [show firstIdxAux c i (x :: xs) = firstIdxAux c (i + 1) xs from
        by simp [firstIdxAux, hx]]
      rw [show firstIdxAux c 0 (x :: xs) = firstIdxAux c 1 xs from
        by simp [firstIdxAux, hx]]
      rw [ih (i + 1), ih 1]
      cases firstIdxAux c 0 xs with
      | none => rfl
      | some j => simp; omega

/-- A successful scan from index 0 reports the position of the first
occurrence: the character is there, and nowhere earlier. -/
theorem firstIdxAux_zero_spec (c : Char) (l : List Char) (j : Nat)
    (h : firstIdxAux c 0 l = some j) :
    l.get? j = some c ∧ c ∉ l.take j := by
  induction l generalizing j with
  | nil => cases h
  | cons x xs ih =>
    by_cases hx : x = c
    · have hj : j = 0 := by
        rw [show firstIdxAux c 0 (x :: xs) = some 0 from
          by simp [firstIdxAux, hx]] at h
        exact (Option.some.inj h).symm
      subst hj
      simp [hx]
    · have h1 : firstIdxAux c 1 xs = some j := by
        rw [show firstIdxAux c 0 (x :: xs) = firstIdxAux c 1 xs from
          by simp [firstIdxAux, hx]] at h
        exact h
      rw [firstIdxAux_shift] at h1
      rcases hbase : firstIdxAux c 0 xs with _ | j'
      · rw [hbase] at h1
        cases h1
      · rw [hbase] at h1
        have hj : j = j' + 1 := (Option.some.inj h1).symm
        subst hj
        obtain ⟨hg, hm⟩ := ih j' hbase
        exact ⟨by simpa using hg, by simp [hm, Ne.symm hx]⟩

/-- C4: On a successful upstream response the handler always answers
200: parsing starts at the first brace character (the whole assistant
string when none exists); when `JSON.parse` succeeds on that suffix the
parsed object is relayed as-is, and when it fails the body is
`\x7b text: assistant \x7d` with the original raw content; content that
is structurally absent from the upstream JSON is treated as the empty
string. -/
theorem c4_assistant_content_parse (parse : String → Option JsVal)
    (j : UpstreamJson) :
    (∀ v, parse (jsonTextOf (assistantOf j)) = some v →
        okBranch parse j = .json 200 v) ∧
    (parse (jsonTextOf (assistantOf j)) = none →
        okBranch parse j = .json 200 (.obj [("text", .str (assistantOf j))])) ∧
    (contentPath j = none → assistantOf j = "") ∧
    (∀ s, firstBracePos s = none → jsonTextOf s = s) ∧
    (∀ s i, firstBracePos s = some i →
        jsonTextOf s = ⟨s.toList.drop i⟩ ∧
        s.toList.get? i = some braceChar ∧
        braceChar ∉ s.toList.take i) := by
  refine ⟨?_, ?_, ?_, ?_, ?_⟩
  · intro v hv
    simp [okBranch, hv]
  · intro hv
    simp [okBranch, hv]
  · intro hc
    simp [assistantOf, hc]
  · intro s hs
    simp [jsonTextOf, hs]
  · intro s i hi
    exact ⟨by simp [jsonTextOf, hi], firstIdxAux_zero_spec _ _ _ hi⟩

/-- Witness for C4: assistant content with leading prose before the
JSON object is parsed from the first brace and relayed. -/
theorem c4_witness :
    okBranch
      (fun s => if s = "\x7bok\x7d" then some (.obj [("k", .num 1)])
        else none)
      ⟨some [⟨some ⟨some "see \x7bok\x7d"⟩⟩]⟩ =
      .json 200 (.obj [("k", .num 1)]) :=
  (c4_assistant_content_parse _ _).1 _ rfl

/-! ## Highlighter lemmas -/

/-- A key is held exactly when some value is stored under it. -/
theorem hasKey_iff (m : List (String × Nat)) (k : String) :
    hasKey m k = true ↔ ∃ v, (k, v) ∈ m := by
  unfold hasKey
  rw [List.any_eq_true]
  constructor
  · rintro ⟨⟨a, b⟩, hp, hpk⟩
    have ha : a = k := by simpa using hpk
    exact ⟨b, ha ▸ hp⟩
  · rintro ⟨v, hv⟩
    exact ⟨(k, v), hv, by simp⟩

/-- Membership after a replacing `Map.set`: the old entries with a
different key, plus the new pair. -/
theorem mem_mapSetReplace_iff (m : List (String × Nat)) (k : String)
    (v : Nat) (p : String × Nat) :
    p ∈ mapSetReplace m k v ↔ ((p ∈ m ∧ p.1 ≠ k) ∨ p = (k, v)) := by
  unfold mapSetReplace
  by_cases hk : hasKey m k
  · rw [if_pos hk]
    constructor
    · intro hp
      rcases List.mem_map.1 hp with ⟨q, hq, hfq⟩
      by_cases hq1 : q.1 = k
      · right
        rw [if_pos hq1] at hfq
        exact hfq.symm
      · left
        rw [if_neg hq1] at hfq
        exact ⟨hfq ▸ hq, hfq ▸ hq1⟩
    · intro hp
      rcases hp with ⟨hm, hne⟩ | hpe
      · exact List.mem_map.2 ⟨p, hm, by rw [if_neg hne]⟩
      · obtain ⟨w, hw⟩ := (hasKey_iff m k).1 hk
        exact List.mem_map.2 ⟨(k, w), hw, by simp [hpe]⟩
  · rw [if_neg hk]
    simp only [List.mem_append, List.mem_singleton]
    constructor
    · rintro (hm | hp)
      · exact Or.inl ⟨hm, fun h1 => hk ((hasKey_iff m k).2 ⟨p.2, h1 ▸ hm⟩)⟩
      · exact Or.inr hp
    · rintro (⟨hm, _⟩ | hp)
      · exact Or.inl hm
      · exact Or.inr hp

/-- Membership after a guarded insert: the old entries, plus the new
pair when its key was free. -/
theorem mem_mapSetIfAbsent_iff (m : List (String × Nat)) (k : String)
    (v : Nat) (p : String × Nat) :
    p ∈ mapSetIfAbsent m k v ↔
      (p ∈ m ∨ (p = (k, v) ∧ hasKey m k = false)) := by
  unfold mapSetIfAbsent
  by_cases hk : hasKey m k
  · rw [if_pos hk]
    simp [hk]
  · rw [if_neg hk]
    have hkf : hasKey m k = false := by simpa using hk
    simp [List.mem_append, hkf]

/-- A guarded insert leaves its own key present. -/
theorem hasKey_mapSetIfAbsent_self (m : List (String × Nat))
    (k : String) (v : Nat) :
    hasKey (mapSetIfAbsent m k v) k = true := by
  unfold mapSetIfAbsent
  by_cases hk : hasKey m k
  · rw [if_pos hk]
    exact hk
  · rw [if_neg hk]
    exact (hasKey_iff _ _).2 ⟨v, by simp⟩

/-- A guarded insert does not affect other keys. -/
theorem hasKey_mapSetIfAbsent_ne (m : List (String × Nat))
    (k : String) (v : Nat) (g : String) (hne : g ≠ k) :
    hasKey (mapSetIfAbsent m k v) g = hasKey m g := by
  unfold mapSetIfAbsent
  by_cases hk : hasKey m k
  · rw [if_pos hk]
  · rw [if_neg hk]
    unfold hasKey
    rw [List.any_append]
    simp [Ne.symm hne]

/-- Absolute index of the first anchor (scanning from index `i`) whose
candidate filename is `g`. -/
def findFirstFrom (g : String) : Nat → List Anchor → Option Nat
  | _, [] => none
  | i, a :: rest =>
    if candidate a = some g then some i else findFirstFrom g (i + 1) rest

/-- Absolute index of the last anchor (scanning from index `i`) whose
candidate filename is `g`. -/
def findLastFrom (g : String) : Nat → List Anchor → Option Nat
  | _, [] => none
  | i, a :: rest =>
    match findLastFrom g (i + 1) rest with
    | some j => some j
    | none => if candidate a = some g then some i else none

/-- Invariant of the guarded-insert collection loop: an entry is either
inherited from the accumulator or records the first occurrence of a
fresh filename. -/
theorem collectAux_true_mem (l : List Anchor) :
    ∀ (i0 : Nat) (m : List (String × Nat)) (g : String) (j : Nat),
      ((g, j) ∈ collectAux true i0 l m ↔
        ((g, j) ∈ m ∨
          (hasKey m g = false ∧ findFirstFrom g i0 l = some j))) := by
  induction l with
  | nil =>
    intro i0 m g j
    simp [collectAux, findFirstFrom]
  | cons a rest ih =>
    intro i0 m g j
    show (g, j) ∈ collectAux true (i0 + 1) rest (collectStep true m i0 a) ↔ _
    rcases hc : candidate a with _ | f
    · rw [show collectStep true m i0 a = m from by simp [collectStep, hc]]
      rw [show findFirstFrom g i0 (a :: rest) =
          findFirstFrom g (i0 + 1) rest from by
        simp [findFirstFrom, hc]]
      exact ih (i0 + 1) m g j
    · rw [show collectStep true m i0 a = mapSetIfAbsent m f i0 from by
        simp [collectStep, hc]]
      by_cases hf : f = g
      · subst hf
        rw [show findFirstFrom f i0 (a :: rest) = some i0 from by
          simp [findFirstFrom, hc]]
        rw [ih (i0 + 1) (mapSetIfAbsent m f i0) f j]
        rw [hasKey_mapSetIfAbsent_self m f i0]
        rw [mem_mapSetIfAbsent_iff]
        constructor
        · rintro ((hm | ⟨hp, hfree⟩) | ⟨habs, _⟩)
          · exact Or.inl hm
          · injection hp with h1 h2
            exact Or.inr ⟨hfree, by rw [h2]⟩
          · cases habs
        · rintro (hm | ⟨hfree, hij⟩)
          · exact Or.inl (Or.inl hm)
          · have hj : i0 = j := by injection hij
            exact Or.inl (Or.inr ⟨by rw [hj], hfree⟩)
      · rw [show findFirstFrom g i0 (a :: rest) =
            findFirstFrom g (i0 + 1) rest from by
          simp [findFirstFrom, hc, hf]]
        rw [ih (i0 + 1) (mapSetIfAbsent m f i0) g j]
        rw [hasKey_mapSetIfAbsent_ne m f i0 g (fun h => hf h.symm)]
        rw [mem_mapSetIfAbsent_iff]
        constructor
        · rintro ((hm | ⟨hp, _⟩) | hrest)
          · exact Or.inl hm
          · injection hp with h1 h2
            exact absurd h1.symm hf
          · exact Or.inr hrest
        · rintro (hm | hrest)
          · exact Or.inl (Or.inl hm)
          · exact Or.inr hrest

/-- Invariant of the replacing-`set` collection loop: when a filename
occurs in the remaining scan, its entry records the last occurrence,
overriding anything in the accumulator. -/
theorem collectAux_false_mem (l : List Anchor) :
    ∀ (i0 : Nat) (m : List (String × Nat)) (g : String) (j : Nat),
      (findLastFrom g i0 l = none →
        ((g, j) ∈ collectAux false i0 l m ↔ (g, j) ∈ m)) ∧
      (∀ j', findLastFrom g i0 l = some j' →
        ((g, j) ∈ collectAux false i0 l m ↔ j = j')) := by
  induction l with
  | nil =>
    intro i0 m g j
    refine ⟨fun _ => by simp [collectAux], fun j' h => ?_⟩
    cases h
  | cons a rest ih =>
    intro i0 m g j
    have hstep : collectAux false i0 (a :: rest) m =
        collectAux false (i0 + 1) rest (collectStep false m i0 a) := rfl
    rcases hc : candidate a with _ | f
    · have hcs : collectStep false m i0 a = m := by simp [collectStep, hc]
      have hfind : findLastFrom g i0 (a :: rest) =
          findLastFrom g (i0 + 1) rest := by
        cases h : findLastFrom g (i0 + 1) rest <;>
          simp [findLastFrom, hc, h]
      rw [hstep, hcs, hfind]
      exact ih (i0 + 1) m g j
    · have hcs : collectStep false m i0 a = mapSetReplace m f i0 := by
        simp [collectStep, hc]
      rw [hstep, hcs]
      by_cases hf : f = g
      · subst hf
        cases hrest : findLastFrom f (i0 + 1) rest with
        | some j2 =>
          have hfind : findLastFrom f i0 (a :: rest) = some j2 := by
            simp [findLastFrom, hrest]
          rw [hfind]
          refine ⟨fun habs => (by cases habs), fun j' hj' => ?_⟩
          have hjj : j2 = j' := by injection hj'
          subst hjj
          exact (ih (i0 + 1) (mapSetReplace m f i0) f j).2 j2 hrest
        | none =>
          have hfind : findLastFrom f i0 (a :: rest) = some i0 := by
            simp [findLastFrom, hrest, hc]
          rw [hfind]
          refine ⟨fun habs => (by cases habs), fun j' hj' => ?_⟩
          have hij : i0 = j' := by injection hj'
          subst hij
          rw [(ih (i0 + 1) (mapSetReplace m f i0) f j).1 hrest]
          rw [mem_mapSetReplace_iff]
          constructor
          · rintro (⟨_, hne⟩ | hp)
            · exact absurd rfl hne
            · simp only [Prod.mk.injEq, true_and] at hp
              exact hp
          · intro hj
            exact Or.inr (by rw [hj])
      · cases hrest : findLastFrom g (i0 + 1) rest with
        | some j2 =>
          have hfind : findLastFrom g i0 (a :: rest) = some j2 := by
            simp [findLastFrom, hrest]
          rw [hfind]
          refine ⟨fun habs => (by cases habs), fun j' hj' => ?_⟩
          have hjj : j2 = j' := by injection hj'
          subst hjj
          exact (ih (i0 + 1) (mapSetReplace m f i0) g j).2 j2 hrest
        | none =>
          have hfind : findLastFrom g i0 (a :: rest) = none := by
            simp [findLastFrom, hrest, hc, hf]
          rw [hfind]
          refine ⟨fun _ => ?_, fun j' hj' => (by cases hj')⟩
          rw [(ih (i0 + 1) (mapSetReplace m f i0) g j).1 hrest]
          rw [mem_mapSetReplace_iff]
          constructor
          · rintro (⟨hm, _⟩ | hp)
            · exact hm
            · injection hp with h1 h2
              exact absurd h1.symm hf
          · intro hm
            exact Or.inl ⟨hm, fun h => hf h.symm⟩

/-- A first-occurrence index points into the scan, at an anchor whose
candidate filename is the one searched for. -/
theorem findFirstFrom_spec (g : String) (l : List Anchor) :
    ∀ i0 j, findFirstFrom g i0 l = some j →
      ∃ k, k < l.length ∧ i0 + k = j ∧
        ∀ d, candidate (l.getD k d) = some g := by
  induction l with
  | nil =>
    intro i0 j h
    cases h
  | cons a rest ih =>
    intro i0 j h
    by_cases hc : candidate a = some g
    · have hj : i0 = j := by
        rw [show findFirstFrom g i0 (a :: rest) = some i0 from by
          simp [findFirstFrom, hc]] at h
        injection h
      exact ⟨0, by simp, by simpa using hj, fun d => hc⟩
    · rw [show findFirstFrom g i0 (a :: rest) =
          findFirstFrom g (i0 + 1) rest from by
        simp [findFirstFrom, hc]] at h
      obtain ⟨k, hk, hik, hcand⟩ := ih (i0 + 1) j h
      exact ⟨k + 1, by simpa using hk, by omega,
        fun d => by simpa using hcand d⟩

/-- A last-occurrence index points into the scan, at an anchor whose
candidate filename is the one searched for. -/
theorem findLastFrom_spec (g : String) (l : List Anchor) :
    ∀ i0 j, findLastFrom g i0 l = some j →
      ∃ k, k < l.length ∧ i0 + k = j ∧
        ∀ d, candidate (l.getD k d) = some g := by
  induction l with
  | nil =>
    intro i0 j h
    cases h
  | cons a rest ih =>
    intro i0 j h
    cases hrest : findLastFrom g (i0 + 1) rest with
    | some j2 =>
      rw [show findLastFrom g i0 (a :: rest) = some j2 from by
        simp [findLastFrom, hrest]] at h
      have hj : j2 = j := by injection h
      obtain ⟨k, hk, hik, hcand⟩ := ih (i0 + 1) j2 hrest
      exact ⟨k + 1, by simpa using hk, by omega,
        fun d => by simpa using hcand d⟩
    | none =>
      by_cases hc : candidate a = some g
      · rw [show findLastFrom g i0 (a :: rest) = some i0 from by
          simp [findLastFrom, hrest, hc]] at h
        have hj : i0 = j := by injection h
        exact ⟨0, by simp, by simpa using hj, fun d => hc⟩
      · rw [show findLastFrom g i0 (a :: rest) = none from by
          simp [findLastFrom, hrest, hc]] at h
        cases h

/-- Variant B's map (guarded insert) records exactly the first
occurrence of each candidate filename. -/
theorem mem_collect_true_iff (scan : List Anchor) (g : String) (j : Nat) :
    (g, j) ∈ collect true scan ↔ findFirstFrom g 0 scan = some j := by
  unfold collect
  rw [collectAux_true_mem scan 0 [] g j]
  simp [hasKey]

/-- Variant A's map (replacing `set`) records exactly the last
occurrence of each candidate filename. -/
theorem mem_collect_false_iff (scan : List Anchor) (g : String) (j : Nat) :
    (g, j) ∈ collect false scan ↔ findLastFrom g 0 scan = some j := by
  unfold collect
  cases h : findLastFrom g 0 scan with
  | none =>
    rw [(collectAux_false_mem scan 0 [] g j).1 h]
    simp
  | some j2 =>
    rw [(collectAux_false_mem scan 0 [] g j).2 j2 h]
    refine ⟨fun hj => ?_, fun hj => ?_⟩
    · rw [hj]
    · injection hj with h1
      omega

/-- Any recorded entry points at an in-range anchor whose candidate
filename is the recorded key. -/
theorem collect_mem_candidate (fw : Bool) (scan : List Anchor)
    (g : String) (j : Nat) (h : (g, j) ∈ collect fw scan) :
    j < scan.length ∧ ∀ d, candidate (scan.getD j d) = some g := by
  cases fw
  · rw [mem_collect_false_iff] at h
    obtain ⟨k, hk, hik, hcand⟩ := findLastFrom_spec g scan 0 j h
    have hkj : k = j := by omega
    subst hkj
    exact ⟨hk, hcand⟩
  · rw [mem_collect_true_iff] at h
    obtain ⟨k, hk, hik, hcand⟩ := findFirstFrom_spec g scan 0 j h
    have hkj : k = j := by omega
    subst hkj
    exact ⟨hk, hcand⟩

/-- Element-wise description of the apply loop: the anchor at absolute
index `i + j` is rewritten by its map entry, or untouched. -/
theorem applyAll_getD (vA : Bool) (dests : List String)
    (current : String) (m : List (String × Nat)) (scan : List Anchor) :
    ∀ i j d, j < scan.length →
      (applyAll vA dests current m i scan).getD j d =
        (match entryFor m (i + j) with
          | some f => applyToAnchor vA dests current f (scan.getD j d)
          | none => scan.getD j d) := by
  induction scan with
  | nil =>
    intro i j d h
    cases h
  | cons a rest ih =>
    intro i j d h
    cases j with
    | zero =>
      simp only [applyAll, List.getD_cons_zero, Nat.add_zero]
    | succ j2 =>
      have h2 : j2 < rest.length := by simpa using h
      show (applyAll vA dests current m (i + 1) rest).getD j2 d = _
      rw [ih (i + 1) j2 d h2]
      have harith : i + 1 + j2 = i + (j2 + 1) := by omega
      rw [harith]
      simp [List.getD_cons_succ]

/-- `classList.add` puts the class in. -/
theorem mem_classAdd_self (cs : List String) (c : String) :
    c ∈ classAdd cs c := by
  unfold classAdd
  by_cases h : cs.contains c
  · rw [if_pos h]
    exact List.elem_iff.1 h
  · rw [if_neg h]
    simp

/-- `classList.add` keeps other classes and their order. -/
theorem classRemove_classAdd (cs : List String) (c : String) :
    classRemove (classAdd cs c) c = classRemove cs c := by
  unfold classAdd classRemove
  by_cases h : cs.contains c
  · rw [if_pos h]
  · rw [if_neg h, List.filter_append]
    simp

/-- `classList.remove` takes the class out. -/
theorem not_mem_classRemove (cs : List String) (c : String) :
    c ∉ classRemove cs c := by
  unfold classRemove
  simp [List.mem_filter]

/-- `classList.remove` is idempotent on the removed class. -/
theorem classRemove_classRemove (cs : List String) (c : String) :
    classRemove (classRemove cs c) c = classRemove cs c := by
  unfold classRemove
  rw [List.filter_filter]
  simp

/-- After the apply-loop body, `shimmer` is present exactly when the
filename is a destination other than the current page. -/
theorem mem_shimmer_applyToAnchor (vA : Bool) (dests : List String)
    (current f : String) (a : Anchor) :
    ("shimmer" ∈ (applyToAnchor vA dests current f a).classes ↔
      (f ∈ dests ∧ f ≠ current)) := by
  unfold applyToAnchor
  by_cases h : f ∈ dests ∧ f ≠ current
  · rw [if_pos (by simp [List.elem_iff, h.1, h.2])]
    cases vA <;> simp [mem_classAdd_self, h]
  · rw [if_neg (by
      intro hb
      exact h (by simpa [List.elem_iff] using hb))]
    simp [not_mem_classRemove, h]

/-- Element-wise description of a full run: each scanned anchor is
rewritten according to its entry in the collected map, or untouched. -/
theorem runShimmer_getD (vA : Bool) (dests : List String)
    (current : String) (scan : List Anchor) (i : Nat) (d : Anchor)
    (h : i < scan.length) :
    (runShimmer vA dests current scan).getD i d =
      (match entryFor (collect (!vA) scan) i with
        | some f => applyToAnchor vA dests current f (scan.getD i d)
        | none => scan.getD i d) := by
  unfold runShimmer
  have hget := applyAll_getD vA dests current (collect (!vA) scan)
    scan 0 i d h
  simpa using hget

/-- The apply-loop body leaves every anchor field except the class list
and (in variant A, on the add path) the tabindex unchanged; the class
list changes only in its `shimmer` membership. -/
theorem applyToAnchor_fields (vA : Bool) (dests : List String)
    (current f : String) (a : Anchor) :
    (applyToAnchor vA dests current f a).href = a.href ∧
    (applyToAnchor vA dests current f a).hasImg = a.hasImg ∧
    (applyToAnchor vA dests current f a).hasSvg = a.hasSvg ∧
    classRemove (applyToAnchor vA dests current f a).classes "shimmer" =
      classRemove a.classes "shimmer" ∧
    ((applyToAnchor vA dests current f a).tabindex = a.tabindex ∨
      (vA = true ∧ (applyToAnchor vA dests current f a).tabindex =
        some (match a.tabindex with
          | some t => if t = "" then "0" else t
          | none => "0"))) := by
  unfold applyToAnchor
  split
  · cases vA
    · exact ⟨rfl, rfl, rfl, classRemove_classAdd _ _, Or.inl rfl⟩
    · exact ⟨rfl, rfl, rfl, classRemove_classAdd _ _, Or.inr ⟨rfl, rfl⟩⟩
  · exact ⟨rfl, rfl, rfl, classRemove_classRemove _ _, Or.inl rfl⟩

/-! ## Claims C7, C8, C9 -/

/-- C7: In either variant, a recorded anchor carries the `shimmer`
class after the run exactly when its normalised filename is in the
destination set and differs from the current page (otherwise the class
is removed); the recorded filename really is the anchor's candidate
filename; and an anchor containing an `img` or `svg` element is never
recorded and its DOM state is never touched, whatever its target. -/
theorem c7_shimmer_class_iff :
    (∀ (variantA : Bool) (dests : List String) (current : String)
        (scan : List Anchor) (i : Nat) (f : String) (d : Anchor),
        entryFor (collect (!variantA) scan) i = some f →
        i < scan.length →
        (("shimmer" ∈
            ((runShimmer variantA dests current scan).getD i d).classes) ↔
          (f ∈ dests ∧ f ≠ current)) ∧
        candidate (scan.getD i d) = some f) ∧
    (∀ (variantA : Bool) (dests : List String) (current : String)
        (scan : List Anchor) (i : Nat) (d : Anchor),
        ((scan.getD i d).hasImg = true ∨ (scan.getD i d).hasSvg = true) →
        i < scan.length →
        (∀ g, (g, i) ∉ collect (!variantA) scan) ∧
        (runShimmer variantA dests current scan).getD i d =
          scan.getD i d) := by
  constructor
  · intro vA dests current scan i f d hentry hlen
    have hmem : (f, i) ∈ collect (!vA) scan := by
      unfold entryFor at hentry
      cases hfind : (collect (!vA) scan).find? (fun p => p.2 = i) with
      | none =>
        rw [hfind] at hentry
        cases hentry
      | some p =>
        rw [hfind] at hentry
        have hp1 : p.1 = f := by simpa using hentry
        have hp2 : p.2 = i := by simpa using List.find?_some hfind
        have hpm := List.mem_of_find?_eq_some hfind
        rw [← hp1, ← hp2]
        simpa using hpm
    refine ⟨?_, (collect_mem_candidate (!vA) scan f i hmem).2 d⟩
    rw [runShimmer_getD vA dests current scan i d hlen, hentry]
    exact mem_shimmer_applyToAnchor vA dests current f (scan.getD i d)
  · intro vA dests current scan i d himg hlen
    have hnot : ∀ g, (g, i) ∉ collect (!vA) scan := by
      intro g hg
      have hcand := (collect_mem_candidate (!vA) scan g i hg).2 d
      have hcn : candidate (scan.getD i d) = none := by
        have hgen : ∀ a : Anchor, a.hasImg = true ∨ a.hasSvg = true →
            candidate a = none := by
          intro a ha
          unfold candidate
          rcases ha with ha | ha <;> simp [ha]
        exact hgen _ himg
      rw [hcn] at hcand
      cases hcand
    refine ⟨hnot, ?_⟩
    have hnone : entryFor (collect (!vA) scan) i = none := by
      unfold entryFor
      rw [List.find?_eq_none.2 ?_]
      · rfl
      · intro p hp hpi
        have hp2 : p.2 = i := by simpa using hpi
        exact hnot p.1 (by
          rw [← hp2]
          simpa using hp)
    rw [runShimmer_getD vA dests current scan i d hlen, hnone]

/-- Witness for C7: on `panama.html`, a plain header link to
`costarica.html` is recorded under its filename and gains the class. -/
theorem c7_witness :
    (("shimmer" ∈
        ((runShimmer false ["costarica.html", "panama.html", "belize.html"]
            "panama.html"
            [⟨some "costarica.html", false, false, [], none⟩]).getD 0
          ⟨none, false, false, [], none⟩).classes) ↔
      ("costarica.html" ∈ ["costarica.html", "panama.html", "belize.html"] ∧
        "costarica.html" ≠ "panama.html")) ∧
    candidate (([⟨some "costarica.html", false, false, [], none⟩] :
        List Anchor).getD 0 ⟨none, false, false, [], none⟩) =
      some "costarica.html" :=
  c7_shimmer_class_iff.1 false _ "panama.html" _ 0 "costarica.html" _
    (by decide) (by decide)

/-- Counterexample to C8 as stated: two distinct header anchors both
target `panama.html`; variant A records (and decorates) the second one,
not the first — the recorded index is 1 and the anchor at index 0 is
left untouched. -/
theorem c8_counterexample :
    ("panama.html", 1) ∈ collect false
      [⟨some "panama.html", false, false, [], some "5"⟩,
       ⟨some "panama.html", false, false, [], none⟩] ∧
    ("panama.html", 0) ∉ collect false
      [⟨some "panama.html", false, false, [], some "5"⟩,
       ⟨some "panama.html", false, false, [], none⟩] ∧
    "shimmer" ∈ ((runVariantA "index.html"
        [⟨some "panama.html", false, false, [], some "5"⟩,
         ⟨some "panama.html", false, false, [], none⟩]).getD 1
      ⟨none, false, false, [], none⟩).classes ∧
    "shimmer" ∉ ((runVariantA "index.html"
        [⟨some "panama.html", false, false, [], some "5"⟩,
         ⟨some "panama.html", false, false, [], none⟩]).getD 0
      ⟨none, false, false, [], none⟩).classes := by
  decide

/-- C8 (amended): when two qualifying anchors normalise to the same
filename, variant B (guarded insert) records the first occurrence found
during the selector scan, but variant A (plain `Map.set`, which
replaces the stored anchor) records the last occurrence. -/
theorem c8_duplicate_resolution :
    (∀ (scan : List Anchor) (g : String) (j : Nat),
        ((g, j) ∈ collect true scan ↔ findFirstFrom g 0 scan = some j)) ∧
    (∀ (scan : List Anchor) (g : String) (j : Nat),
        ((g, j) ∈ collect false scan ↔ findLastFrom g 0 scan = some j)) :=
  ⟨mem_collect_true_iff, mem_collect_false_iff⟩

/-- Counterexample to C9 as stated: variant A also mutates the
`tabindex` attribute — a qualifying anchor with no `tabindex` ends the
run with `tabindex="0"`. -/
theorem c9_counterexample :
    ((runVariantA "index.html"
        [⟨some "belize.html", false, false, [], none⟩]).getD 0
      ⟨none, false, false, [], none⟩).tabindex = some "0" ∧
    (⟨some "belize.html", false, false, [], none⟩ : Anchor).tabindex =
      none := by
  decide

/-- C9 (amended): variant B mutates nothing but the presence of
`shimmer` in each recorded anchor's class list; variant A preserves
every field except that class membership and the `tabindex` attribute,
which it either leaves unchanged or sets to its old value (defaulting
to "0" when absent or empty) on anchors that gain the class. -/
theorem c9_mutation_scope :
    (∀ (dests : List String) (current : String) (scan : List Anchor)
        (i : Nat) (d : Anchor), i < scan.length →
        ((runShimmer false dests current scan).getD i d).href =
          (scan.getD i d).href ∧
        ((runShimmer false dests current scan).getD i d).hasImg =
          (scan.getD i d).hasImg ∧
        ((runShimmer false dests current scan).getD i d).hasSvg =
          (scan.getD i d).hasSvg ∧
        ((runShimmer false dests current scan).getD i d).tabindex =
          (scan.getD i d).tabindex ∧
        classRemove
            ((runShimmer false dests current scan).getD i d).classes
            "shimmer" =
          classRemove (scan.getD i d).classes "shimmer") ∧
    (∀ (dests : List String) (current : String) (scan : List Anchor)
        (i : Nat) (d : Anchor), i < scan.length →
        ((runShimmer true dests current scan).getD i d).href =
          (scan.getD i d).href ∧
        ((runShimmer true dests current scan).getD i d).hasImg =
          (scan.getD i d).hasImg ∧
        ((runShimmer true dests current scan).getD i d).hasSvg =
          (scan.getD i d).hasSvg ∧
        classRemove
            ((runShimmer true dests current scan).getD i d).classes
            "shimmer" =
          classRemove (scan.getD i d).classes "shimmer" ∧
        (((runShimmer true dests current scan).getD i d).tabindex =
            (scan.getD i d).tabindex ∨
          ((runShimmer true dests current scan).getD i d).tabindex =
            some (match (scan.getD i d).tabindex with
              | some t => if t = "" then "0" else t
              | none => "0"))) := by
  constructor
  · intro dests current scan i d hlen
    rw [runShimmer_getD false dests current scan i d hlen]
    cases hentry : entryFor (collect (!false) scan) i with
    | none => exact ⟨rfl, rfl, rfl, rfl, rfl⟩
    | some f =>
      obtain ⟨h1, h2, h3, h4, h5⟩ :=
        applyToAnchor_fields false dests current f (scan.getD i d)
      rcases h5 with h5 | ⟨hfalse, _⟩
      · exact ⟨h1, h2, h3, h5, h4⟩
      · cases hfalse
  · intro dests current scan i d hlen
    rw [runShimmer_getD true dests current scan i d hlen]
    cases hentry : entryFor (collect (!true) scan) i with
    | none => exact ⟨rfl, rfl, rfl, rfl, Or.inl rfl⟩
    | some f =>
      obtain ⟨h1, h2, h3, h4, h5⟩ :=
        applyToAnchor_fields true dests current f (scan.getD i d)
      rcases h5 with h5 | ⟨_, h5⟩
      · exact ⟨h1, h2, h3, h4, Or.inl h5⟩
      · exact ⟨h1, h2, h3, h4, Or.inr h5⟩

/-- Witness for C9 (amended): a variant B run over one recorded anchor
keeps every field but the class list, and the class list changes only
by gaining `shimmer`. -/
theorem c9_witness :
    ((runShimmer false ["belize.html"] "index.html"
        [⟨some "belize.html", false, false, ["x"], none⟩]).getD 0
      ⟨none, false, false, [], none⟩).href =
      (([⟨some "belize.html", false, false, ["x"], none⟩] :
          List Anchor).getD 0 ⟨none, false, false, [], none⟩).href ∧
    ((runShimmer false ["belize.html"] "index.html"
        [⟨some "belize.html", false, false, ["x"], none⟩]).getD 0
      ⟨none, false, false, [], none⟩).hasImg =
      (([⟨some "belize.html", false, false, ["x"], none⟩] :
          List Anchor).getD 0 ⟨none, false, false, [], none⟩).hasImg ∧
    ((runShimmer false ["belize.html"] "index.html"
        [⟨some "belize.html", false, false, ["x"], none⟩]).getD 0
      ⟨none, false, false, [], none⟩).hasSvg =
      (([⟨some "belize.html", false, false, ["x"], none⟩] :
          List Anchor).getD 0 ⟨none, false, false, [], none⟩).hasSvg ∧
    ((runShimmer false ["belize.html"] "index.html"
        [⟨some "belize.html", false, false, ["x"], none⟩]).getD 0
      ⟨none, false, false, [], none⟩).tabindex =
      (([⟨some "belize.html", false, false, ["x"], none⟩] :
          List Anchor).getD 0 ⟨none, false, false, [], none⟩).tabindex ∧
    classRemove
        ((runShimmer false ["belize.html"] "index.html"
            [⟨some "belize.html", false, false, ["x"], none⟩]).getD 0
          ⟨none, false, false, [], none⟩).classes "shimmer" =
      classRemove
        (([⟨some "belize.html", false, false, ["x"], none⟩] :
            List Anchor).getD 0
          ⟨none, false, false, [], none⟩).classes "shimmer" :=
  c9_mutation_scope.1 ["belize.html"] "index.html"
    [⟨some "belize.html", false, false, ["x"], none⟩] 0
    ⟨none, false, false, [], none⟩ (by decide)
